import Mathlib

/-!
Shallow embedding of the image-download pipeline of `src/downloader.py`
(the Animal Names project), together with proofs settling the claims of
the specification against it.

The embedding models:
  * `slugify` (downloader.py lines 69-95) as a pure function on strings;
  * `fetch_with_retries` (lines 569-646) as a deterministic function of an
    attempt-outcome oracle (what the HTTP layer returns on each attempt) and
    a jitter oracle (the value drawn by `random.uniform(0.05, 0.15)` on each
    loop iteration), made observable through a result record that carries the
    boolean return value, the number of requests issued, the list of sleeps
    performed (in milliseconds), and the state of the destination file;
  * `extract_image_url` (lines 98-566) restricted to its error channel: the
    page fetch and the strategy cascade are abstracted into an oracle, while
    the `except requests.RequestException: return None` handler (lines
    561-563) and the URL-normalization step (lines 212-219) are embedded
    exactly;
  * `download_images` / `download_animal_image` (lines 649-791) as a
    sequential fold over the deduplicated entity list, with the filesystem an
    explicit set of paths and every locate/fetch invocation recorded in an
    event log tagged by the entity on whose behalf it was issued.  (The
    Python code runs the per-entity closures on a thread pool; each closure
    touches a distinct slug-derived path, and `executor.map` joins before the
    results are merged, so the sequential fold is observationally the same
    for the properties stated here.)
-/

namespace AnimalNames

/-! ## Slugs and destination paths -/

/-- A character survives the `re.sub(r"[^a-z0-9\-_]", "", slug)` filter of
`slugify` (downloader.py line 87). -/
def keepChar (c : Char) : Bool :=
  (97 ≤ c.toNat && c.toNat ≤ 122) || (48 ≤ c.toNat && c.toNat ≤ 57) ||
    c = '-' || c = '_'

/-- Collapse every run of consecutive hyphens to a single hyphen, the
`re.sub(r"-+", "-", slug)` step of `slugify` (downloader.py line 90). -/
def collapseHyphens : List Char → List Char
  | [] => []
  | [c] => [c]
  | a :: b :: rest =>
    if a = '-' && b = '-' then collapseHyphens (b :: rest)
    else a :: collapseHyphens (b :: rest)

/-- Python `str.strip("-")`: drop leading and trailing hyphens
(downloader.py line 93). -/
def stripHyphens (l : List Char) : List Char :=
  ((l.dropWhile (fun c => c = '-')).reverse.dropWhile (fun c => c = '-')).reverse

/-- Embedding of `slugify` (downloader.py lines 69-95): lowercase, spaces to
hyphens, drop characters outside `[a-z0-9-_]`, collapse repeated hyphens,
strip leading/trailing hyphens.  `str.lower()` is modelled by
`Char.toLower`, which agrees on ASCII input. -/
def slugify (name : String) : String :=
  let s1 := name.data.map Char.toLower
  let s2 := s1.map (fun c => if c = ' ' then '-' else c)
  let s3 := s2.filter keepChar
  String.mk (stripHyphens (collapseHyphens s3))

/-- The destination file for an entity, `output_dir / f"{slug}.jpg"` as built
by `download_animal_image` (downloader.py line 724), rendered as a POSIX
path string. -/
def destPath (outputDir name : String) : String :=
  outputDir ++ "/" ++ slugify name ++ ".jpg"

example : slugify "African elephant" = "african-elephant" := by decide
example : slugify "  Spaces  " = "spaces" := by decide
example : slugify "Multiple--Hyphens" = "multiple-hyphens" := by decide

/-! ## Fetch-with-retry model -/

/-- What the HTTP layer does on one attempt of `fetch_with_retries`: either
`session.get` raises `requests.RequestException`, or it returns a response
with a status code, an optional parsed `Content-Length` header, and a flag
saying whether streaming the body to disk completes without a transport
exception. -/
inductive AttemptOutcome where
  | reqError
  | response (status : Nat) (contentLength : Option Nat) (streamOk : Bool)
deriving DecidableEq, Repr

/-- State of the destination file: `incomplete` records a partially written
body (the `open(dest, "wb")` block was entered but streaming raised),
`complete` a fully written one. -/
inductive FileWrite where
  | incomplete
  | complete
deriving DecidableEq, Repr

/-- Observable outcome of a `fetch_with_retries` call: the returned boolean,
the number of `session.get` calls issued, the sleeps performed (ms), and the
final state of the destination file. -/
structure FetchResult where
  ok : Bool
  requests : Nat
  sleeps : List ℚ
  dest : Option FileWrite
deriving DecidableEq, Repr

/-- The size-ceiling test of downloader.py lines 607-612: a declared
`Content-Length` strictly above 5 MiB aborts the download. -/
def oversize : Option Nat → Bool
  | some n => 5 * 1024 * 1024 < n
  | none => false

/-- The constant `base_delay = 0.5` seconds (downloader.py line 595), in milliseconds. -/
def baseDelayMs : ℚ := 500

/-- The sleep performed at the top of loop iteration `attempt`
(downloader.py lines 600-602): nothing before the first attempt, otherwise
`base_delay * 2 ** (attempt - 1) + jitter` where `jitter` is the value drawn
by `random.uniform(0.05, 0.15)` on that iteration (here in milliseconds). -/
def sleepsBefore (jitter : Nat → ℚ) (attempt : Nat) : List ℚ :=
  if attempt = 0 then [] else [baseDelayMs * 2 ^ (attempt - 1) + jitter attempt]

/-- The sleeps performed by `n` consecutive loop iterations starting at
iteration `a`. -/
def sleepsSeg (jitter : Nat → ℚ) (a : Nat) : Nat → List ℚ
  | 0 => []
  | n + 1 => sleepsBefore jitter a ++ sleepsSeg jitter (a + 1) n

/-- The retry loop of `fetch_with_retries` (downloader.py lines 597-646),
starting at loop iteration `attempt` with `rem` iterations remaining and the
destination file in state `dest`.  Per iteration, in source order: sleep
(after the first attempt), issue the request; on `Content-Length` above the
ceiling return `False`; on 4xx return `False`; on 5xx fall through to the
next iteration; otherwise stream the body — success returns `True` with a
complete file, a transport exception while streaming leaves the partially
written file in place and falls through to the next iteration, exactly as
the bare `open`/`iter_content` loop of lines 632-634 does.  Exhausting the
loop returns `False`. -/
def fetchGo (outcome : Nat → AttemptOutcome) (jitter : Nat → ℚ) :
    Nat → Nat → Option FileWrite → FetchResult
  | _, 0, dest => ⟨false, 0, [], dest⟩
  | attempt, rem + 1, dest =>
    let sl := sleepsBefore jitter attempt
    match outcome attempt with
    | .reqError =>
      let r := fetchGo outcome jitter (attempt + 1) rem dest
      ⟨r.ok, r.requests + 1, sl ++ r.sleeps, r.dest⟩
    | .response status clen streamOk =>
      if oversize clen then ⟨false, 1, sl, dest⟩
      else if 400 ≤ status ∧ status < 500 then ⟨false, 1, sl, dest⟩
      else if 500 ≤ status ∧ status < 600 then
        let r := fetchGo outcome jitter (attempt + 1) rem dest
        ⟨r.ok, r.requests + 1, sl ++ r.sleeps, r.dest⟩
      else if streamOk then ⟨true, 1, sl, some .complete⟩
      else
        let r := fetchGo outcome jitter (attempt + 1) rem (some .incomplete)
        ⟨r.ok, r.requests + 1, sl ++ r.sleeps, r.dest⟩

/-- Embedding of `fetch_with_retries` (downloader.py lines 569-646).  An
empty URL models the falsy-URL guard `if not url: return False` of lines
581-583 (both `None` and `""` are falsy); it returns `False` before any
request or filesystem touch.  Otherwise the retry loop runs for `retries`
iterations. -/
def fetch_with_retries (url : String) (outcome : Nat → AttemptOutcome)
    (jitter : Nat → ℚ) (retries : Nat) (dest0 : Option FileWrite) : FetchResult :=
  if url = "" then ⟨false, 0, [], dest0⟩
  else fetchGo outcome jitter 0 retries dest0

example :
    fetch_with_retries "http://x/i.jpg"
      (fun i => .response (if i = 0 then 503 else 200) none true)
      (fun _ => 100) 3 none = ⟨true, 2, [600], some .complete⟩ := by
  norm_num [fetch_with_retries, fetchGo, sleepsBefore, oversize, baseDelayMs]
  decide

example :
    fetch_with_retries "http://x/i.jpg" (fun _ => .response 200 none false)
      (fun _ => 100) 2 none = ⟨false, 2, [600], some .incomplete⟩ := by
  norm_num [fetch_with_retries, fetchGo, sleepsBefore, oversize, baseDelayMs]
  decide

/-! ## Image locator: URL normalization and error channel -/

/-- Split a character list at the first occurrence of `"://"`, returning the
part before and the part after, or `none` when `"://"` does not occur. -/
def splitSchemeAux : List Char → Option (List Char × List Char)
  | [] => none
  | ':' :: '/' :: '/' :: rest => some ([], rest)
  | c :: rest =>
    match splitSchemeAux rest with
    | some (s, r) => some (c :: s, r)
    | none => none

/-- Scheme of a URL as `requests.utils.urlparse` reports it for URLs of the
shape `scheme://netloc/...`: the part before the first `"://"`, empty when
there is none. -/
def urlparseScheme (u : String) : String :=
  match splitSchemeAux u.data with
  | some (s, _) => String.mk s
  | none => ""

/-- Network location of a URL as `requests.utils.urlparse` reports it for
URLs of the shape `scheme://netloc/...`: the segment between `"://"` and the
next `/`, empty when there is no `"://"`. -/
def urlparseNetloc (u : String) : String :=
  match splitSchemeAux u.data with
  | some (_, r) => String.mk (r.takeWhile (fun c => c != '/'))
  | none => ""

/-- Python `str.startswith`, on the character lists of the two strings. -/
def strStartsWith (s pre : String) : Bool :=
  pre.data.isPrefixOf s.data

/-- The absolute-URL normalization applied by `extract_image_url` to every
accepted candidate (downloader.py lines 212-219 and its copies at 264-269,
327-332, 377-384, 424-431, 468-473, 517-523): a protocol-relative URL gets
the literal prefix `"https:"`; a root-relative URL gets
`f"{parsed_url.scheme}://{parsed_url.netloc}"` of the page URL prepended;
anything else is returned unchanged. -/
def normalizeImgUrl (pageUrl imgUrl : String) : String :=
  if strStartsWith imgUrl "//" then "https:" ++ imgUrl
  else if strStartsWith imgUrl "/" then
    urlparseScheme pageUrl ++ "://" ++ urlparseNetloc pageUrl ++ imgUrl
  else imgUrl

/-- What fetching and scanning the source page yields, seen from
`extract_image_url`'s error handler: either the page fetch (or
`raise_for_status`) raises `requests.RequestException`, or the page is
obtained and the strategy cascade (downloader.py lines 169-559, abstracted
here) produces its result, `some` candidate URL or `none`. -/
inductive PageFetchResult where
  | fetchFailure
  | fetched (best : Option String)
deriving DecidableEq, Repr

/-- Error kinds a locator contract could surface to its caller; used to state
what `extract_image_url` does NOT do. -/
inductive LocateErr where
  | fetchError
deriving DecidableEq, Repr

/-- Embedding of `extract_image_url`'s result channel (downloader.py lines
98-566).  The whole body sits in a `try` whose
`except requests.RequestException` handler (lines 561-563) catches a failed
page fetch and returns `None`; no exception escapes, so the result is always
`Except.ok`.  The strategy cascade is abstracted into the `PageFetchResult`
oracle. -/
def extract_image_url (page : String → PageFetchResult) (pageUrl : String) :
    Except LocateErr (Option String) :=
  match page pageUrl with
  | .fetchFailure => .ok none
  | .fetched best => .ok best

/-! ## Download orchestrator model -/

/-- The `Animal` dataclass of `src/scraper.py` lines 19-25. -/
structure Animal where
  name : String
  page_url : Option String
  image_path : Option String
deriving DecidableEq, Repr

/-- Oracle environment for one `download_images` run: what
`extract_image_url` returns per page URL, whether `fetch_with_retries`
succeeds per image URL, whether a placeholder image is configured AND exists
(the `if placeholder_path and placeholder_path.exists()` test of
downloader.py line 743), and the free disk space that `shutil.disk_usage`
reports (in MB, as computed on line 677). -/
structure Env where
  locate : String → Option String
  fetchOk : String → Bool
  placeholder : Option String
  freeSpaceMB : ℚ

/-- A locate or fetch invocation recorded during a run, tagged with the name
of the entity on whose behalf the per-entity task issued it. -/
inductive NetEvent where
  | locateCall (name pageUrl : String)
  | fetchCall (name url dest : String)
deriving DecidableEq, Repr

/-- The entity a network event was issued for. -/
def NetEvent.nameOf : NetEvent → String
  | .locateCall m _ => m
  | .fetchCall m _ _ => m

/-- Whether an event was issued on behalf of entity `n`. -/
def NetEvent.forName (n : String) (e : NetEvent) : Bool :=
  e.nameOf == n

/-- Observable outcome of one `download_animal_image` task: the returned
`(name, path-or-None)` pair, the filesystem afterwards, and the network
events issued. -/
structure StepOut where
  result : String × Option String
  fs : List String
  events : List NetEvent
deriving DecidableEq, Repr

/-- Embedding of the inner `download_animal_image` closure (downloader.py
lines 721-753).  The filesystem is the set (list) of existing file paths.
In source order: if the slug-derived destination already exists, accept it
(lines 726-731); otherwise call `extract_image_url` when a page URL is
present (line 734), then `fetch_with_retries` when a candidate URL was
found (line 737); on failure copy the placeholder if one is configured and
exists (lines 743-748); otherwise return `(name, None)` (line 753). -/
def download_animal_image (env : Env) (outputDir : String) (fs : List String)
    (a : Animal) : StepOut :=
  let path := destPath outputDir a.name
  if path ∈ fs then
    ⟨(a.name, some path), fs, []⟩
  else
    match a.page_url with
    | none =>
      match env.placeholder with
      | some _ => ⟨(a.name, some path), path :: fs, []⟩
      | none => ⟨(a.name, none), fs, []⟩
    | some u =>
      match env.locate u with
      | some iurl =>
        if env.fetchOk iurl then
          ⟨(a.name, some path), path :: fs,
            [.locateCall a.name u, .fetchCall a.name iurl path]⟩
        else
          match env.placeholder with
          | some _ =>
            ⟨(a.name, some path), path :: fs,
              [.locateCall a.name u, .fetchCall a.name iurl path]⟩
          | none =>
            ⟨(a.name, none), fs,
              [.locateCall a.name u, .fetchCall a.name iurl path]⟩
      | none =>
        match env.placeholder with
        | some _ => ⟨(a.name, some path), path :: fs, [.locateCall a.name u]⟩
        | none => ⟨(a.name, none), fs, [.locateCall a.name u]⟩

/-- Flatten the `category -> animals` mapping in iteration order, the
`all_animals` accumulation of downloader.py lines 705-707. -/
def allAnimals : List (String × List Animal) → List Animal
  | [] => []
  | (_, animals) :: rest => animals ++ allAnimals rest

/-- Deduplicate by name, first occurrence wins: the `unique_animals` dict of
downloader.py lines 710-714. -/
def dedupGo (seen : List String) : List Animal → List Animal
  | [] => []
  | a :: rest =>
    if a.name ∈ seen then dedupGo seen rest
    else a :: dedupGo (a.name :: seen) rest

/-- The deduplicated entity list a run schedules work for. -/
def uniqueAnimals (mapping : List (String × List Animal)) : List Animal :=
  dedupGo [] (allAnimals mapping)

/-- Accumulated observable state of the per-entity fan-out phase. -/
structure RunState where
  results : List (String × Option String)
  fs : List String
  events : List NetEvent
deriving DecidableEq, Repr

/-- The fan-out over unique animals (the `executor.map` of downloader.py
line 760), modelled as a sequential fold: each task owns its slug-derived
destination and the thread pool joins before results are consumed, so the
per-entity results, final filesystem and per-entity event sets match the
concurrent execution. -/
def processAll (env : Env) (outputDir : String) :
    List Animal → List String → RunState
  | [], fs => ⟨[], fs, []⟩
  | a :: rest, fs =>
    let s := download_animal_image env outputDir fs a
    let r := processAll env outputDir rest s.fs
    ⟨s.result :: r.results, r.fs, s.events ++ r.events⟩

/-- Build the manifest entries from the task results, keeping the truthy
paths: the `if path: manifest_entries[name] = path` loop of downloader.py
lines 763-765. -/
def manifestEntries (results : List (String × Option String)) :
    List (String × String) :=
  results.filterMap (fun r => r.2.map (fun p => (r.1, p)))

/-- Dictionary access on the manifest-entry association list (entry keys are
unique animal names, so the first hit is the only one). -/
def lookupEntry : List (String × String) → String → Option String
  | [], _ => none
  | (k, v) :: rest, n => if k = n then some v else lookupEntry rest n

/-- The final per-animal update of downloader.py lines 774-777: set
`image_path` when the name has a manifest entry, leave the record alone
otherwise. -/
def updateAnimal (entries : List (String × String)) (a : Animal) : Animal :=
  match lookupEntry entries a.name with
  | some p => { a with image_path := some p }
  | none => a

/-- Apply `updateAnimal` to every occurrence across all categories
(downloader.py lines 767-777). -/
def updateMapping (entries : List (String × String))
    (mapping : List (String × List Animal)) : List (String × List Animal) :=
  mapping.map (fun c => (c.1, c.2.map (updateAnimal entries)))

/-- The body of the disk-space check in `download_images` (downloader.py
lines 676-682): below 100 MB warn; below 10 MB raise `OSError`. -/
def diskCheckInner (freeSpaceMB : ℚ) : Except String Unit :=
  if freeSpaceMB < 100 then
    if freeSpaceMB < 10 then Except.error "Insufficient disk space"
    else Except.ok ()
  else Except.ok ()

/-- The disk-space check as actually executed: the `raise OSError` of line
682 sits inside the same `try` block whose `except Exception` handler
(lines 683-684) catches every exception — including that `OSError` — logs
`"Could not check disk space"` and falls through, so the check never aborts
the run. -/
def diskCheck (freeSpaceMB : ℚ) : Except String Unit :=
  match diskCheckInner freeSpaceMB with
  | Except.error _ => Except.ok ()
  | Except.ok () => Except.ok ()

/-- Observable outcome of a `download_images` run: the manifest entries (in
insertion order), the updated mapping, the network events issued, and the
filesystem afterwards. -/
structure DownloadResult where
  manifest : List (String × String)
  mapping : List (String × List Animal)
  events : List NetEvent
  fs : List String
deriving DecidableEq, Repr

/-- Embedding of `download_images` (downloader.py lines 649-791): run the
disk-space check (whose failure branch is unreachable, see `diskCheck`),
deduplicate by name, fan out one `download_animal_image` task per unique
entity, collect the manifest from truthy result paths, and update every
animal occurrence across all categories from the manifest. -/
def download_images (env : Env) (mapping : List (String × List Animal))
    (outputDir : String) (fs0 : List String) : DownloadResult :=
  match diskCheck env.freeSpaceMB with
  | Except.error _ => ⟨[], mapping, [], fs0⟩
  | Except.ok () =>
    let r := processAll env outputDir (uniqueAnimals mapping) fs0
    let entries := manifestEntries r.results
    ⟨entries, updateMapping entries mapping, r.events, r.fs⟩

/-! ## Fetch-with-retry lemmas -/

/-- A run of `m` clean 5xx responses followed by a clean 2xx response at
iteration `a + m` makes the retry loop succeed after exactly `m + 1`
requests, sleeping before every iteration after the first. -/
theorem fetchGo_success_run (outcome : Nat → AttemptOutcome) (jitter : Nat → ℚ)
    (status : Nat → Nat) :
    ∀ (m a rem : Nat) (dest : Option FileWrite),
      m < rem →
      (∀ i, i < m → outcome (a + i) = .response (status (a + i)) none true ∧
        500 ≤ status (a + i) ∧ status (a + i) < 600) →
      (outcome (a + m) = .response (status (a + m)) none true ∧
        200 ≤ status (a + m) ∧ status (a + m) < 300) →
      fetchGo outcome jitter a rem dest =
        ⟨true, m + 1, sleepsSeg jitter a (m + 1), some .complete⟩ := by
  intro m
  induction m with
  | zero =>
    intro a rem dest hrem h5 h2
    obtain ⟨r, rfl⟩ : ∃ r, rem = r + 1 := ⟨rem - 1, by omega⟩
    rw [fetchGo]
    simp only [Nat.add_zero] at h2
    rw [h2.1]
    have hnot4 : ¬(400 ≤ status a ∧ status a < 500) := by omega
    have hnot5 : ¬(500 ≤ status a ∧ status a < 600) := by omega
    simp [oversize, hnot4, hnot5, sleepsSeg]
  | succ m ih =>
    intro a rem dest hrem h5 h2
    obtain ⟨r, rfl⟩ : ∃ r, rem = r + 1 := ⟨rem - 1, by omega⟩
    rw [fetchGo]
    have h0 := h5 0 (by omega)
    simp only [Nat.add_zero] at h0
    rw [h0.1]
    have hnotov : oversize none = false := rfl
    have hnot4 : ¬(400 ≤ status a ∧ status a < 500) := by omega
    have h5' : (500 ≤ status a ∧ status a < 600) := ⟨h0.2.1, h0.2.2⟩
    have ihr := ih (a + 1) r dest (by omega)
      (fun i hi => by
        have := h5 (i + 1) (by omega)
        simpa [Nat.add_assoc, Nat.add_comm 1 i] using this)
      (by
        have := h2
        simpa [Nat.add_assoc, Nat.add_comm 1 m] using this)
    simp [hnotov, hnot4, h5', ihr, sleepsSeg]

/-- A run of `rem` clean 5xx responses exhausts the retry loop: `False` is
returned after exactly `rem` requests and the destination is untouched. -/
theorem fetchGo_all_5xx (outcome : Nat → AttemptOutcome) (jitter : Nat → ℚ)
    (status : Nat → Nat) :
    ∀ (rem a : Nat) (dest : Option FileWrite),
      (∀ i, i < rem → outcome (a + i) = .response (status (a + i)) none true ∧
        500 ≤ status (a + i) ∧ status (a + i) < 600) →
      fetchGo outcome jitter a rem dest = ⟨false, rem, sleepsSeg jitter a rem, dest⟩ := by
  intro rem
  induction rem with
  | zero => intro a dest _; simp [fetchGo, sleepsSeg]
  | succ r ih =>
    intro a dest h5
    rw [fetchGo]
    have h0 := h5 0 (by omega)
    simp only [Nat.add_zero] at h0
    rw [h0.1]
    have hnot4 : ¬(400 ≤ status a ∧ status a < 500) := by omega
    have h5' : (500 ≤ status a ∧ status a < 600) := ⟨h0.2.1, h0.2.2⟩
    have ihr := ih (a + 1) dest
      (fun i hi => by
        have := h5 (i + 1) (by omega)
        simpa [Nat.add_assoc, Nat.add_comm 1 i] using this)
    simp [oversize, hnot4, h5', ihr, sleepsSeg]

/-- Closed form for the sleeps of a run starting at iteration `a + 1`. -/
theorem sleepsSeg_shift (jitter : Nat → ℚ) :
    ∀ (n a : Nat), sleepsSeg jitter (a + 1) n =
      (List.range n).map
        (fun i => baseDelayMs * 2 ^ (a + i) + jitter (a + 1 + i)) := by
  intro n
  induction n with
  | zero => intro a; simp [sleepsSeg]
  | succ n ih =>
    intro a
    rw [sleepsSeg, sleepsBefore, List.range_succ_eq_map, List.map_cons, List.map_map]
    rw [if_neg (by omega), ih (a + 1)]
    simp only [Nat.add_sub_cancel, List.singleton_append, Nat.add_zero]
    congr 1
    apply List.map_congr_left
    intro i _
    have e1 : a + 1 + i = a + Nat.succ i := by omega
    have e2 : a + 1 + 1 + i = a + 1 + Nat.succ i := by omega
    simp only [Function.comp]
    rw [e1, e2]

/-- Closed form for the sleeps of a full run of `m + 1` iterations: no sleep
before the first attempt, then one sleep of `500 * 2 ^ i` ms plus the drawn
jitter before each subsequent attempt. -/
theorem sleepsSeg_zero (jitter : Nat → ℚ) (m : Nat) :
    sleepsSeg jitter 0 (m + 1) =
      (List.range m).map (fun i => baseDelayMs * 2 ^ i + jitter (i + 1)) := by
  rw [sleepsSeg, sleepsBefore, if_pos rfl, List.nil_append]
  have := sleepsSeg_shift jitter m 0
  simpa [Nat.add_comm] using this

/-! ## Claim C2 -/

/-- Claim C2: for every `k` with `1 ≤ k ≤ max_attempts`, if the URL yields a
5xx status on each of the first `k - 1` attempts and a (plain, within the
size ceiling, cleanly streamed) 2xx status on attempt `k`, then
`fetch_with_retries` returns `True` and issues exactly `k` requests, and
before every attempt after the first it sleeps
`base_delay * 2 ^ (attempt_index - 1)` plus the drawn jitter, which
`random.uniform(0.05, 0.15)` keeps within [50 ms, 150 ms]. -/
theorem fetch_retry_backoff_success (url : String)
    (outcome : Nat → AttemptOutcome) (jitter : Nat → ℚ) (status : Nat → Nat)
    (retries k : Nat) (dest0 : Option FileWrite)
    (hurl : url ≠ "") (hk1 : 1 ≤ k) (hk2 : k ≤ retries)
    (h5 : ∀ i, i < k - 1 → outcome i = .response (status i) none true ∧
      500 ≤ status i ∧ status i < 600)
    (h2 : outcome (k - 1) = .response (status (k - 1)) none true ∧
      200 ≤ status (k - 1) ∧ status (k - 1) < 300)
    (hj : ∀ i, 50 ≤ jitter i ∧ jitter i ≤ 150) :
    fetch_with_retries url outcome jitter retries dest0 =
      ⟨true, k, (List.range (k - 1)).map
        (fun i => baseDelayMs * 2 ^ i + jitter (i + 1)), some .complete⟩ ∧
    ∀ i, i < k - 1 → 50 ≤ jitter (i + 1) ∧ jitter (i + 1) ≤ 150 := by
  constructor
  · rw [fetch_with_retries, if_neg hurl]
    have h := fetchGo_success_run outcome jitter status (k - 1) 0 retries dest0
      (by omega)
      (fun i hi => by simpa using h5 i hi)
      (by simpa using h2)
    rw [h]
    have hk : k - 1 + 1 = k := by omega
    rw [sleepsSeg_zero, hk]
  · intro i _
    exact hj (i + 1)

/-- Witness for C2 at `k = 2`, `max_attempts = 3`: one 503 then one 200,
jitter fixed at 100 ms. -/
theorem fetch_retry_backoff_success_witness :
    fetch_with_retries "http://x/img.jpg"
      (fun i => .response (if i = 0 then 503 else 200) none true)
      (fun _ => 100) 3 none =
      ⟨true, 2, (List.range 1).map
        (fun i => baseDelayMs * 2 ^ i + (fun _ : Nat => (100 : ℚ)) (i + 1)),
        some .complete⟩ := by
  have h := fetch_retry_backoff_success "http://x/img.jpg"
    (fun i => .response (if i = 0 then 503 else 200) none true)
    (fun _ => 100) (fun i => if i = 0 then 503 else 200) 3 2 none
    (by decide) (by decide) (by decide)
    (by intro i hi; interval_cases i; simp)
    (by simp)
    (by intro i; norm_num)
  exact h.1

/-! ## Claim C3 -/

/-- Counterexample for C3: with a response whose body streaming raises a
transport exception on every attempt (here `retries = 3`, the default), the
final failure path returns `False` but leaves a partially written file at
the destination — the `open(dest, "wb")` block of downloader.py lines
632-634 truncates and writes `dest` in place with no delete-on-failure or
write-then-rename. -/
theorem fetch_stream_failure_keeps_incomplete_file :
    (fetch_with_retries "http://x/img.jpg" (fun _ => .response 200 none false)
      (fun _ => 100) 3 none).ok = false ∧
    (fetch_with_retries "http://x/img.jpg" (fun _ => .response 200 none false)
      (fun _ => 100) 3 none).dest = some FileWrite.incomplete :=
  ⟨rfl, rfl⟩

/-- Amended C3: on the all-5xx failure path, `fetch_with_retries` returns
`False`, issues exactly `max_attempts` requests and leaves the destination
exactly as it was (in particular, no file when none existed); the no-file
guarantee does NOT extend to a transport exception raised while streaming
the body, which leaves a partial file (see
`fetch_stream_failure_keeps_incomplete_file`). -/
theorem fetch_all_5xx_no_file (url : String) (outcome : Nat → AttemptOutcome)
    (jitter : Nat → ℚ) (status : Nat → Nat) (retries : Nat)
    (dest0 : Option FileWrite)
    (hurl : url ≠ "")
    (h5 : ∀ i, i < retries → outcome i = .response (status i) none true ∧
      500 ≤ status i ∧ status i < 600) :
    fetch_with_retries url outcome jitter retries dest0 =
      ⟨false, retries, sleepsSeg jitter 0 retries, dest0⟩ := by
  rw [fetch_with_retries, if_neg hurl]
  exact fetchGo_all_5xx outcome jitter status retries 0 dest0
    (fun i hi => by simpa using h5 i hi)

/-- Witness for the amended C3: three 503 responses, empty initial
destination — `False`, 3 requests, destination still empty. -/
theorem fetch_all_5xx_no_file_witness :
    fetch_with_retries "http://x/img.jpg" (fun _ => .response 503 none true)
      (fun _ => 100) 3 none =
      ⟨false, 3, sleepsSeg (fun _ => 100) 0 3, none⟩ :=
  fetch_all_5xx_no_file "http://x/img.jpg" (fun _ => .response 503 none true)
    (fun _ => 100) (fun _ => 503) 3 none (by decide)
    (by intro i hi; exact ⟨rfl, by norm_num, by norm_num⟩)

/-! ## Claim C4 -/

/-- Claim C4: a first response with a 4xx status, or one declaring a
`Content-Length` above 5 MiB, makes `fetch_with_retries` return `False`
after exactly one request, with no sleep and the destination untouched,
regardless of the configured retry count (provided the loop runs at all,
i.e. `retries ≥ 1`; the Python default is 3). -/
theorem fetch_client_error_or_oversize_no_retry (url : String)
    (outcome : Nat → AttemptOutcome) (jitter : Nat → ℚ) (retries : Nat)
    (dest0 : Option FileWrite) (status : Nat) (clen : Option Nat) (st : Bool)
    (hurl : url ≠ "") (hret : 1 ≤ retries)
    (h0 : outcome 0 = .response status clen st)
    (hcase : oversize clen = true ∨ (400 ≤ status ∧ status < 500)) :
    fetch_with_retries url outcome jitter retries dest0 =
      ⟨false, 1, [], dest0⟩ := by
  obtain ⟨r, rfl⟩ : ∃ r, retries = r + 1 := ⟨retries - 1, by omega⟩
  rw [fetch_with_retries, if_neg hurl, fetchGo, h0]
  by_cases hov : oversize clen = true
  · simp [hov, sleepsBefore]
  · have hc : 400 ≤ status ∧ status < 500 := by tauto
    simp [hov, hc, sleepsBefore]

/-- Witness for C4: a 404 response with the default `retries = 3`. -/
theorem fetch_client_error_no_retry_witness :
    fetch_with_retries "http://x/img.jpg" (fun _ => .response 404 none true)
      (fun _ => 100) 3 none = ⟨false, 1, [], none⟩ :=
  fetch_client_error_or_oversize_no_retry "http://x/img.jpg"
    (fun _ => .response 404 none true) (fun _ => 100) 3 none 404 none true
    (by decide) (by decide) rfl (Or.inr (by omega))

/-! ## Claim C10 -/

/-- Claim C10: for every destination, calling `fetch_with_retries` with an
empty (falsy) URL returns `False` immediately: zero requests, zero sleeps,
and the destination file state untouched. -/
theorem fetch_empty_url_noop (outcome : Nat → AttemptOutcome)
    (jitter : Nat → ℚ) (retries : Nat) (dest0 : Option FileWrite) :
    fetch_with_retries "" outcome jitter retries dest0 =
      ⟨false, 0, [], dest0⟩ := by
  rw [fetch_with_retries, if_pos rfl]

/-! ## Claim C7 -/

/-- Counterexample for C7: when the page fetch raises
`requests.RequestException` (here: on every page), `extract_image_url`
returns the ordinary `None` result instead of propagating a
`FetchError`-kind failure — the `except requests.RequestException` handler
of downloader.py lines 561-563 converts the failure into `None`.  (The
repository's own test, test_downloader.py lines 166-167, asserts exactly
this `None` behavior.) -/
theorem locate_page_failure_returns_none_cex :
    extract_image_url (fun _ => .fetchFailure) "https://en.wikipedia.org/wiki/Shark" =
      .ok none ∧
    extract_image_url (fun _ => .fetchFailure) "https://en.wikipedia.org/wiki/Shark" ≠
      .error LocateErr.fetchError :=
  ⟨rfl, by simp [extract_image_url]⟩

/-- Amended C7: when the source page cannot be retrieved, the transport
error is caught inside `extract_image_url` (not retried internally and not
propagated); the caller receives the ordinary `None` result,
indistinguishable from the no-image-found outcome. -/
theorem locate_page_failure_returns_none (page : String → PageFetchResult)
    (pageUrl : String) (h : page pageUrl = .fetchFailure) :
    extract_image_url page pageUrl = .ok none := by
  rw [extract_image_url, h]

/-- Witness for the amended C7. -/
theorem locate_page_failure_returns_none_witness :
    extract_image_url (fun _ => .fetchFailure) "https://en.wikipedia.org/wiki/Dog" =
      .ok none :=
  locate_page_failure_returns_none (fun _ => .fetchFailure)
    "https://en.wikipedia.org/wiki/Dog" rfl

/-! ## Claim C8 -/

/-- Counterexample for C8: the entities named `"Dog!"` and `"Dog?"` have
distinct names but identical slugs, hence identical slug-derived destination
paths — `slugify` strips every character outside `[a-z0-9-_]`, so distinct
names do not guarantee distinct files. -/
theorem distinct_names_shared_path_cex :
    ("Dog!" : String) ≠ "Dog?" ∧
    slugify "Dog!" = slugify "Dog?" ∧
    destPath "images" "Dog!" = destPath "images" "Dog?" := by
  refine ⟨by decide, by decide, by decide⟩

/-- Amended C8: destination paths are partitioned per slug, not per raw
name: within one `download_images` run, two entities whose slugified names
differ always get distinct slug-derived destination paths (two distinct
names that collapse to the same slug share one path, see
`distinct_names_shared_path_cex`). -/
theorem distinct_slugs_distinct_paths (outputDir n1 n2 : String)
    (h : slugify n1 ≠ slugify n2) :
    destPath outputDir n1 ≠ destPath outputDir n2 := by
  intro he
  apply h
  have hd := congrArg String.data he
  simp only [destPath, String.data_append, List.append_assoc] at hd
  have h1 : (slugify n1).data = (slugify n2).data := by
    have h2 := List.append_cancel_left hd
    have h3 := List.append_cancel_left h2
    exact List.append_cancel_right h3
  exact congrArg String.mk h1

/-- Witness for the amended C8. -/
theorem distinct_slugs_distinct_paths_witness :
    destPath "images" "Shark" ≠ destPath "images" "Frilled shark" :=
  distinct_slugs_distinct_paths "images" "Shark" "Frilled shark" (by decide)

/-! ## Claim C9 -/

/-- Counterexample for C9: for the http page `http://example.com/page`, the
protocol-relative candidate `//upload.wikimedia.org/a.jpg` is normalized
with the literal prefix `"https:"` (downloader.py line 214), not with the
source page's scheme `http`. -/
theorem protocol_relative_scheme_cex :
    urlparseScheme "http://example.com/page" = "http" ∧
    normalizeImgUrl "http://example.com/page" "//upload.wikimedia.org/a.jpg" =
      "https://upload.wikimedia.org/a.jpg" ∧
    normalizeImgUrl "http://example.com/page" "//upload.wikimedia.org/a.jpg" ≠
      urlparseScheme "http://example.com/page" ++ ":" ++
        "//upload.wikimedia.org/a.jpg" := by
  refine ⟨by decide, by decide, by decide⟩

/-- Amended C9: a protocol-relative (`//...`) candidate URL is normalized by
prepending the literal string `"https:"` (whatever the page's scheme), and a
root-relative (`/...`) candidate by prepending the source page's scheme and
host. -/
theorem candidate_url_normalization (pageUrl imgUrl : String) :
    (strStartsWith imgUrl "//" = true →
      normalizeImgUrl pageUrl imgUrl = "https:" ++ imgUrl) ∧
    (strStartsWith imgUrl "//" = false → strStartsWith imgUrl "/" = true →
      normalizeImgUrl pageUrl imgUrl =
        urlparseScheme pageUrl ++ "://" ++ urlparseNetloc pageUrl ++ imgUrl) := by
  constructor
  · intro h
    rw [normalizeImgUrl, if_pos h]
  · intro h1 h2
    rw [normalizeImgUrl, if_neg (by simp [h1]), if_pos h2]

/-- Witness for the amended C9, on a protocol-relative and a root-relative
candidate of the page `https://en.wikipedia.org/wiki/Shark`. -/
theorem candidate_url_normalization_witness :
    normalizeImgUrl "https://en.wikipedia.org/wiki/Shark"
      "//upload.wikimedia.org/shark.jpg" =
      "https://upload.wikimedia.org/shark.jpg" ∧
    normalizeImgUrl "https://en.wikipedia.org/wiki/Shark"
      "/static/images/shark.png" =
      "https://en.wikipedia.org/static/images/shark.png" := by
  constructor
  · have h := (candidate_url_normalization "https://en.wikipedia.org/wiki/Shark"
      "//upload.wikimedia.org/shark.jpg").1 (by decide)
    rw [h]
    decide
  · have h := (candidate_url_normalization "https://en.wikipedia.org/wiki/Shark"
      "/static/images/shark.png").2 (by decide) (by decide)
    rw [h]
    decide

/-! ## Orchestrator lemmas -/

/-- The disk-space check never aborts: every exception the `try` body can
raise — including the deliberate `OSError` of the critical branch — is
caught by the `except Exception` handler of downloader.py lines 683-684. -/
theorem diskCheck_ok (q : ℚ) : diskCheck q = Except.ok () := by
  unfold diskCheck
  split
  · rfl
  · rfl

/-- Unfolding of `download_images` through the (always passing) disk check. -/
theorem download_images_eq (env : Env) (mapping : List (String × List Animal))
    (outputDir : String) (fs0 : List String) :
    download_images env mapping outputDir fs0 =
      ⟨manifestEntries (processAll env outputDir (uniqueAnimals mapping) fs0).results,
       updateMapping
         (manifestEntries (processAll env outputDir (uniqueAnimals mapping) fs0).results)
         mapping,
       (processAll env outputDir (uniqueAnimals mapping) fs0).events,
       (processAll env outputDir (uniqueAnimals mapping) fs0).fs⟩ := by
  unfold download_images
  rw [diskCheck_ok]

/-- One task's returned name is the animal's name. -/
theorem step_result_name (env : Env) (o : String) (fs : List String) (a : Animal) :
    (download_animal_image env o fs a).result.1 = a.name := by
  simp only [download_animal_image]
  repeat' split
  all_goals rfl

/-- Every event a task issues is tagged with that animal's name. -/
theorem step_events_name (env : Env) (o : String) (fs : List String) (a : Animal) :
    ∀ e ∈ (download_animal_image env o fs a).events, e.nameOf = a.name := by
  simp only [download_animal_image]
  repeat' split
  all_goals simp [NetEvent.nameOf]

/-- A task never removes files. -/
theorem step_fs_super (env : Env) (o : String) (fs : List String) (a : Animal) :
    fs ⊆ (download_animal_image env o fs a).fs := by
  simp only [download_animal_image]
  repeat' split
  all_goals first
    | exact List.Subset.refl _
    | exact fun x hx => List.mem_cons_of_mem _ hx

/-- A task touches at most its own slug-derived destination path. -/
theorem step_fs_sub (env : Env) (o : String) (fs : List String) (a : Animal) :
    (download_animal_image env o fs a).fs ⊆ destPath o a.name :: fs := by
  simp only [download_animal_image]
  repeat' split
  all_goals first
    | exact List.Subset.refl _
    | exact fun x hx => List.mem_cons_of_mem _ hx

/-- Idempotent short-circuit (downloader.py lines 726-731): when the
slug-derived destination already exists, the task accepts it and issues no
locate or fetch call. -/
theorem step_skip (env : Env) (o : String) (fs : List String) (a : Animal)
    (h : destPath o a.name ∈ fs) :
    download_animal_image env o fs a =
      ⟨(a.name, some (destPath o a.name)), fs, []⟩ := by
  simp only [download_animal_image]
  rw [if_pos h]

/-- The happy path of one task: destination absent, page URL present,
locator finds a candidate, fetch succeeds — exactly one locate call
followed by one fetch call, and the destination is written. -/
theorem step_success (env : Env) (o : String) (fs : List String) (a : Animal)
    (u iurl : String)
    (h1 : destPath o a.name ∉ fs) (h2 : a.page_url = some u)
    (h3 : env.locate u = some iurl) (h4 : env.fetchOk iurl = true) :
    download_animal_image env o fs a =
      ⟨(a.name, some (destPath o a.name)), destPath o a.name :: fs,
        [.locateCall a.name u, .fetchCall a.name iurl (destPath o a.name)]⟩ := by
  simp only [download_animal_image, h2, h3]
  rw [if_neg h1, if_pos h4]

/-- Whenever a task reports a path, that path is its own slug-derived
destination and it exists on the filesystem the task leaves behind. -/
theorem step_result_some (env : Env) (o : String) (fs : List String) (a : Animal)
    (p : String) (h : (download_animal_image env o fs a).result.2 = some p) :
    p = destPath o a.name ∧ p ∈ (download_animal_image env o fs a).fs := by
  by_cases hf : destPath o a.name ∈ fs
  · rw [step_skip env o fs a hf] at h ⊢
    simp only [Option.some.injEq] at h
    subst h
    exact ⟨rfl, hf⟩
  · rcases hpu : a.page_url with _ | u
    · rcases hpl : env.placeholder with _ | q
      · have hstep : download_animal_image env o fs a = ⟨(a.name, none), fs, []⟩ := by
          simp only [download_animal_image, hpu, hpl]
          rw [if_neg hf]
        rw [hstep] at h
        simp at h
      · have hstep : download_animal_image env o fs a =
            ⟨(a.name, some (destPath o a.name)), destPath o a.name :: fs, []⟩ := by
          simp only [download_animal_image, hpu, hpl]
          rw [if_neg hf]
        rw [hstep] at h ⊢
        simp only [Option.some.injEq] at h
        subst h
        exact ⟨rfl, List.mem_cons_self _ _⟩
    · rcases hloc : env.locate u with _ | iurl
      · rcases hpl : env.placeholder with _ | q
        · have hstep : download_animal_image env o fs a =
              ⟨(a.name, none), fs, [.locateCall a.name u]⟩ := by
            simp only [download_animal_image, hpu, hloc, hpl]
            rw [if_neg hf]
          rw [hstep] at h
          simp at h
        · have hstep : download_animal_image env o fs a =
              ⟨(a.name, some (destPath o a.name)), destPath o a.name :: fs,
                [.locateCall a.name u]⟩ := by
            simp only [download_animal_image, hpu, hloc, hpl]
            rw [if_neg hf]
          rw [hstep] at h ⊢
          simp only [Option.some.injEq] at h
          subst h
          exact ⟨rfl, List.mem_cons_self _ _⟩
      · by_cases hfe : env.fetchOk iurl = true
        · rw [step_success env o fs a u iurl hf hpu hloc hfe] at h ⊢
          simp only [Option.some.injEq] at h
          subst h
          exact ⟨rfl, List.mem_cons_self _ _⟩
        · rcases hpl : env.placeholder with _ | q
          · have hstep : download_animal_image env o fs a =
                ⟨(a.name, none), fs,
                  [.locateCall a.name u, .fetchCall a.name iurl (destPath o a.name)]⟩ := by
              simp only [download_animal_image, hpu, hloc, hpl]
              rw [if_neg hf, if_neg hfe]
            rw [hstep] at h
            simp at h
          · have hstep : download_animal_image env o fs a =
                ⟨(a.name, some (destPath o a.name)), destPath o a.name :: fs,
                  [.locateCall a.name u, .fetchCall a.name iurl (destPath o a.name)]⟩ := by
              simp only [download_animal_image, hpu, hloc, hpl]
              rw [if_neg hf, if_neg hfe]
            rw [hstep] at h ⊢
            simp only [Option.some.injEq] at h
            subst h
            exact ⟨rfl, List.mem_cons_self _ _⟩

/-- The fan-out never removes files. -/
theorem processAll_fs_super (env : Env) (o : String) :
    ∀ (l : List Animal) (fs : List String), fs ⊆ (processAll env o l fs).fs := by
  intro l
  induction l with
  | nil => intro fs; exact List.Subset.refl _
  | cons a rest ih =>
    intro fs
    rw [processAll]
    exact (step_fs_super env o fs a).trans (ih _)

/-- The fan-out adds at most the slug-derived destination paths of the
animals it processes. -/
theorem processAll_fs_sub (env : Env) (o : String) :
    ∀ (l : List Animal) (fs : List String),
      (processAll env o l fs).fs ⊆ l.map (fun a => destPath o a.name) ++ fs := by
  intro l
  induction l with
  | nil => intro fs; exact List.Subset.refl _
  | cons a rest ih =>
    intro fs
    rw [processAll]
    intro x hx
    have hx2 := ih (download_animal_image env o fs a).fs hx
    rw [List.mem_append] at hx2
    rcases hx2 with hx2 | hx2
    · simp only [List.map_cons, List.cons_append, List.mem_cons, List.mem_append]
      tauto
    · have hx3 := step_fs_sub env o fs a hx2
      rcases hx3 with _ | hx3
      · simp
      · simp only [List.map_cons, List.cons_append, List.mem_cons, List.mem_append]
        tauto

/-- Every event of the fan-out is tagged with the name of one of the
processed animals. -/
theorem processAll_events_names (env : Env) (o : String) :
    ∀ (l : List Animal) (fs : List String),
      ∀ e ∈ (processAll env o l fs).events, ∃ a ∈ l, e.nameOf = a.name := by
  intro l
  induction l with
  | nil => intro fs e he; simp [processAll] at he
  | cons a rest ih =>
    intro fs e he
    rw [processAll] at he
    simp only [List.mem_append] at he
    rcases he with he | he
    · exact ⟨a, List.mem_cons_self _ _, step_events_name env o fs a e he⟩
    · obtain ⟨b, hb, hbe⟩ := ih _ e he
      exact ⟨b, List.mem_cons_of_mem _ hb, hbe⟩

/-- If none of the processed animals is named `n`, the fan-out issues no
event on behalf of `n`. -/
theorem processAll_events_other (env : Env) (o : String) (n : String)
    (l : List Animal) (fs : List String) (h : ∀ a ∈ l, a.name ≠ n) :
    (processAll env o l fs).events.filter (NetEvent.forName n) = [] := by
  rw [List.filter_eq_nil_iff]
  intro e he
  obtain ⟨a, ha, hname⟩ := processAll_events_names env o l fs e he
  simp only [NetEvent.forName, hname, beq_iff_eq]
  exact fun hc => h a ha (by simp [hc])

/-- Every result of the fan-out carries the name of one of the processed
animals. -/
theorem processAll_results_names (env : Env) (o : String) :
    ∀ (l : List Animal) (fs : List String),
      ∀ r ∈ (processAll env o l fs).results, ∃ a ∈ l, r.1 = a.name := by
  intro l
  induction l with
  | nil => intro fs r hr; simp [processAll] at hr
  | cons a rest ih =>
    intro fs r hr
    rw [processAll] at hr
    rcases List.mem_cons.mp hr with rfl | hr
    · exact ⟨a, List.mem_cons_self _ _, step_result_name env o fs a⟩
    · obtain ⟨b, hb, hbe⟩ := ih _ r hr
      exact ⟨b, List.mem_cons_of_mem _ hb, hbe⟩

/-- Every path reported by the fan-out is the slug-derived destination of
the entity that reported it, and exists on the final filesystem. -/
theorem processAll_results_some (env : Env) (o : String) :
    ∀ (l : List Animal) (fs : List String),
      ∀ r ∈ (processAll env o l fs).results, ∀ p, r.2 = some p →
        p = destPath o r.1 ∧ p ∈ (processAll env o l fs).fs := by
  intro l
  induction l with
  | nil => intro fs r hr; simp [processAll] at hr
  | cons a rest ih =>
    intro fs r hr p hp
    rw [processAll] at hr ⊢
    rcases List.mem_cons.mp hr with rfl | hr
    · obtain ⟨hdp, hmem⟩ := step_result_some env o fs a p hp
      refine ⟨by rw [hdp, step_result_name], ?_⟩
      exact processAll_fs_super env o rest _ hmem
    · exact ih _ r hr p hp

/-- Splitting the fan-out over an append of work lists. -/
theorem processAll_append (env : Env) (o : String) :
    ∀ (l1 l2 : List Animal) (fs : List String),
      processAll env o (l1 ++ l2) fs =
        ⟨(processAll env o l1 fs).results ++
            (processAll env o l2 (processAll env o l1 fs).fs).results,
          (processAll env o l2 (processAll env o l1 fs).fs).fs,
          (processAll env o l1 fs).events ++
            (processAll env o l2 (processAll env o l1 fs).fs).events⟩ := by
  intro l1
  induction l1 with
  | nil => intro l2 fs; simp [processAll]
  | cons a rest ih =>
    intro l2 fs
    simp only [List.cons_append, processAll, List.append_eq]
    rw [ih l2]
    simp [List.append_assoc]

/-- If the destination for name `n` already exists, no event for `n` is ever
issued by the fan-out, whatever else it processes. -/
theorem processAll_skip_name (env : Env) (o : String) (n : String) :
    ∀ (l : List Animal) (fs : List String), destPath o n ∈ fs →
      (processAll env o l fs).events.filter (NetEvent.forName n) = [] := by
  intro l
  induction l with
  | nil => intro fs _; simp [processAll]
  | cons a rest ih =>
    intro fs hfs
    rw [processAll, List.filter_append]
    have hrest := ih (download_animal_image env o fs a).fs
      (step_fs_super env o fs a hfs)
    rw [hrest, List.append_nil]
    by_cases hn : a.name = n
    · rw [step_skip env o fs a (by rw [hn]; exact hfs)]
      rfl
    · rw [List.filter_eq_nil_iff]
      intro e he
      have := step_events_name env o fs a e he
      simp only [NetEvent.forName, this, beq_iff_eq]
      exact fun hc => hn (by simp [hc])

/-! ## Deduplication lemmas -/

/-- Deduplication only keeps animals from the input list. -/
theorem dedupGo_sub : ∀ (seen : List String) (l : List Animal),
    ∀ a ∈ dedupGo seen l, a ∈ l := by
  intro seen l
  induction l generalizing seen with
  | nil => intro a ha; simp [dedupGo] at ha
  | cons b rest ih =>
    intro a ha
    rw [dedupGo] at ha
    split at ha
    · exact List.mem_cons_of_mem _ (ih seen a ha)
    · rcases List.mem_cons.mp ha with rfl | ha
      · exact List.mem_cons_self _ _
      · exact List.mem_cons_of_mem _ (ih _ a ha)

/-- Deduplicated names are pairwise distinct and avoid the seen set. -/
theorem dedupGo_names_nodup : ∀ (seen : List String) (l : List Animal),
    ((dedupGo seen l).map (fun a => a.name)).Nodup ∧
      ∀ a ∈ dedupGo seen l, a.name ∉ seen := by
  intro seen l
  induction l generalizing seen with
  | nil => exact ⟨List.nodup_nil, by simp [dedupGo]⟩
  | cons b rest ih =>
    rw [dedupGo]
    split
    · exact ih seen
    · rename_i hb
      obtain ⟨hnd, hns⟩ := ih (b.name :: seen)
      constructor
      · rw [List.map_cons, List.nodup_cons]
        refine ⟨?_, hnd⟩
        intro hmem
        obtain ⟨a, ha, hae⟩ := List.mem_map.mp hmem
        exact hns a ha (by rw [← hae]; exact List.mem_cons_self _ _)
      · intro a ha
        rcases List.mem_cons.mp ha with rfl | ha
        · exact hb
        · exact fun hc => hns a ha (List.mem_cons_of_mem _ hc)

/-- A name occurring in the input and not yet seen still occurs after
deduplication. -/
theorem dedupGo_mem : ∀ (seen : List String) (l : List Animal) (n : String),
    n ∉ seen → (∃ a ∈ l, a.name = n) → ∃ a ∈ dedupGo seen l, a.name = n := by
  intro seen l
  induction l generalizing seen with
  | nil => intro n _ h; simp at h
  | cons b rest ih =>
    intro n hn h
    rw [dedupGo]
    split
    · rename_i hb
      rcases h with ⟨a, ha, hae⟩
      rcases List.mem_cons.mp ha with rfl | ha
      · exact absurd (hae ▸ hb) hn
      · exact ih seen n hn ⟨a, ha, hae⟩
    · rcases h with ⟨a, ha, hae⟩
      rcases List.mem_cons.mp ha with rfl | ha
      · exact ⟨a, List.mem_cons_self _ _, hae⟩
      · by_cases hbn : b.name = n
        · exact ⟨b, List.mem_cons_self _ _, hbn⟩
        · obtain ⟨c, hc, hce⟩ := ih (b.name :: seen) n
            (fun hmm => Or.elim (List.mem_cons.mp hmm) (fun h1 => hbn h1.symm) hn)
            ⟨a, ha, hae⟩
          exact ⟨c, List.mem_cons_of_mem _ hc, hce⟩

/-- Membership in the flattened mapping. -/
theorem allAnimals_mem : ∀ (mapping : List (String × List Animal))
    (c : String × List Animal) (a : Animal),
    c ∈ mapping → a ∈ c.2 → a ∈ allAnimals mapping := by
  intro mapping
  induction mapping with
  | nil => intro c a hc; simp at hc
  | cons d rest ih =>
    intro c a hc ha
    rw [allAnimals, List.mem_append]
    rcases List.mem_cons.mp hc with rfl | hc
    · exact Or.inl ha
    · exact Or.inr (ih c a hc ha)

/-! ## Manifest lemmas -/

/-- Every manifest entry comes from a task result that reported its path. -/
theorem manifestEntries_mem (rs : List (String × Option String)) :
    ∀ e ∈ manifestEntries rs, ∃ r ∈ rs, r.1 = e.1 ∧ r.2 = some e.2 := by
  intro e he
  rw [manifestEntries] at he
  obtain ⟨r, hr, hre⟩ := List.mem_filterMap.mp he
  obtain ⟨p, hp, hpe⟩ := Option.map_eq_some'.mp hre
  refine ⟨r, hr, ?_, ?_⟩
  · rw [← hpe]
  · rw [hp, ← hpe]

/-- Looking up a key that is absent from the prefix finds the middle
entry. -/
theorem lookupEntry_middle (n p : String) (E2 : List (String × String)) :
    ∀ E1 : List (String × String), (∀ x ∈ E1, x.1 ≠ n) →
      lookupEntry (E1 ++ (n, p) :: E2) n = some p := by
  intro E1
  induction E1 with
  | nil => intro _; simp [lookupEntry]
  | cons x rest ih =>
    intro h
    rcases x with ⟨k, v⟩
    rw [List.cons_append, lookupEntry,
      if_neg (h (k, v) (List.mem_cons_self _ _))]
    exact ih (fun y hy => h y (List.mem_cons_of_mem _ hy))

/-- A successful lookup exhibits a matching entry. -/
theorem lookupEntry_mem (n p : String) :
    ∀ entries : List (String × String),
      lookupEntry entries n = some p → (n, p) ∈ entries := by
  intro entries
  induction entries with
  | nil => intro h; simp [lookupEntry] at h
  | cons x rest ih =>
    intro h
    rcases x with ⟨k, v⟩
    rw [lookupEntry] at h
    by_cases hk : k = n
    · rw [if_pos hk] at h
      obtain rfl := Option.some.inj h
      rw [hk]
      exact List.mem_cons_self _ _
    · rw [if_neg hk] at h
      exact List.mem_cons_of_mem _ (ih h)

/-- Updating an animal record never changes its name. -/
theorem updateAnimal_name (entries : List (String × String)) (a : Animal) :
    (updateAnimal entries a).name = a.name := by
  rw [updateAnimal]
  split
  · rfl
  · rfl

/-! ## Claim C1 -/

/-- Claim C1: for a category grouping in which the entity name `n` appears
in two or more categories (and resolution of `n` goes through: the file is
not already present under its slug or a colliding slug, the shared page URL
locates a candidate, and the fetch succeeds), `download_images` produces a
manifest whose entries for `n` are exactly the single pair
`(n, slug-derived path)`, invokes the locate and fetch layer exactly once
each on behalf of `n`, and after orchestration every occurrence of `n`
across all categories has `image_path` set to that identical path. -/
theorem dedup_one_entry_one_fetch (env : Env)
    (mapping : List (String × List Animal)) (outputDir : String)
    (fs0 : List String) (n u iurl : String)
    (hcat : 2 ≤ (mapping.filter (fun c => c.2.any (fun a => a.name == n))).length)
    (hpu : ∀ a ∈ allAnimals mapping, a.name = n → a.page_url = some u)
    (hloc : env.locate u = some iurl)
    (hfet : env.fetchOk iurl = true)
    (hfs : destPath outputDir n ∉ fs0)
    (hcol : ∀ a ∈ allAnimals mapping, a.name ≠ n →
      destPath outputDir a.name ≠ destPath outputDir n) :
    (download_images env mapping outputDir fs0).manifest.filter
        (fun e => e.1 == n) = [(n, destPath outputDir n)] ∧
    (download_images env mapping outputDir fs0).events.filter
        (NetEvent.forName n) =
      [.locateCall n u, .fetchCall n iurl (destPath outputDir n)] ∧
    ∀ c ∈ (download_images env mapping outputDir fs0).mapping, ∀ a ∈ c.2,
      a.name = n → a.image_path = some (destPath outputDir n) := by
  -- an animal named n exists in the flattened mapping
  have hex : ∃ a ∈ allAnimals mapping, a.name = n := by
    have hne : mapping.filter (fun c => c.2.any (fun a => a.name == n)) ≠ [] := by
      intro h0
      rw [h0] at hcat
      simp at hcat
    obtain ⟨c, hc⟩ := List.exists_mem_of_ne_nil _ hne
    rw [List.mem_filter] at hc
    obtain ⟨a, ha, hae⟩ := List.any_eq_true.mp hc.2
    exact ⟨a, allAnimals_mem mapping c a hc.1 ha, by simpa using hae⟩
  -- the unique representative of n in the deduplicated work list
  obtain ⟨astar, hstar, hstarn⟩ :=
    dedupGo_mem [] (allAnimals mapping) n (by simp) hex
  have hstar2 : astar ∈ uniqueAnimals mapping := hstar
  obtain ⟨l1, l2, hsplit⟩ := List.append_of_mem hstar2
  have hnodup : ((uniqueAnimals mapping).map (fun a => a.name)).Nodup :=
    (dedupGo_names_nodup [] (allAnimals mapping)).1
  rw [hsplit, List.map_append, List.map_cons, List.nodup_append] at hnodup
  -- no animal in l1 or l2 is named n
  have hl1 : ∀ b ∈ l1, b.name ≠ n := by
    intro b hb hbn
    refine hnodup.2.2 (List.mem_map_of_mem (fun a => a.name) hb) ?_
    rw [hbn, hstarn]
    exact List.mem_cons_self _ _
  have hl2 : ∀ b ∈ l2, b.name ≠ n := by
    intro b hb hbn
    have h2 := hnodup.2.1
    rw [List.nodup_cons] at h2
    refine h2.1 ?_
    rw [hstarn, ← hbn]
    exact List.mem_map_of_mem (fun a => a.name) hb
  -- animals in l1/l2 are in the flattened mapping
  have hsub : ∀ b, b ∈ l1 ∨ b ∈ l2 → b ∈ allAnimals mapping := by
    intro b hb
    refine dedupGo_sub [] (allAnimals mapping) b ?_
    show b ∈ uniqueAnimals mapping
    rw [hsplit]
    rcases hb with hb | hb
    · exact List.mem_append_left _ hb
    · exact List.mem_append_right _ (List.mem_cons_of_mem _ hb)
  -- the representative's page URL
  have hstar_pu : astar.page_url = some u :=
    hpu astar (dedupGo_sub [] (allAnimals mapping) astar hstar) hstarn
  -- the destination of n is still absent when its task runs
  have hfsn : destPath outputDir n ∉ (processAll env outputDir l1 fs0).fs := by
    intro hmem
    have hm2 := processAll_fs_sub env outputDir l1 fs0 hmem
    rw [List.mem_append] at hm2
    rcases hm2 with hm2 | hm2
    · obtain ⟨b, hb, hbe⟩ := List.mem_map.mp hm2
      exact hcol b (hsub b (Or.inl hb)) (hl1 b hb) hbe
    · exact hfs hm2
  -- the representative's task takes the happy path
  have hstep := step_success env outputDir
    (processAll env outputDir l1 fs0).fs astar u iurl
    (by rw [hstarn]; exact hfsn) hstar_pu hloc hfet
  rw [hstarn] at hstep
  -- unfold the run along the decomposition
  rw [download_images_eq, hsplit, processAll_append, processAll, hstep]
  dsimp only
  refine ⟨?_, ?_, ?_⟩
  · -- manifest entries for n
    simp only [manifestEntries, List.filterMap_append, List.filterMap_cons,
      Option.map_some', List.filter_append]
    have hside : ∀ (l : List Animal) (fs : List String),
        (∀ b ∈ l, b.name ≠ n) →
        List.filter (fun e => e.1 == n)
          (manifestEntries (processAll env outputDir l fs).results) = [] := by
      intro l fs hl
      rw [List.filter_eq_nil_iff]
      intro e he
      obtain ⟨r, hr, hr1, _⟩ := manifestEntries_mem _ e he
      obtain ⟨b, hb, hbe⟩ := processAll_results_names env outputDir l fs r hr
      simp only [beq_iff_eq]
      rw [← hr1, hbe]
      exact hl b hb
    have h1 := hside l1 fs0 hl1
    have h2 := hside l2
      (destPath outputDir n :: (processAll env outputDir l1 fs0).fs) hl2
    rw [manifestEntries] at h1 h2
    rw [h1]
    simp [List.filter_cons, h2]
  · -- events for n
    simp only [List.filter_append]
    rw [processAll_events_other env outputDir n l1 fs0 hl1,
      processAll_events_other env outputDir n l2 _ hl2]
    simp [NetEvent.forName, NetEvent.nameOf]
  · -- every occurrence of n is updated to the shared path
    intro c hc a ha hname
    obtain ⟨c0, hc0, rfl⟩ := List.mem_map.mp hc
    obtain ⟨a0, ha0, rfl⟩ := List.mem_map.mp ha
    have hname0 : a0.name = n := by
      rw [← updateAnimal_name _ a0]
      exact hname
    -- the lookup finds the representative's entry
    have hkeys : ∀ x ∈ manifestEntries (processAll env outputDir l1 fs0).results,
        x.1 ≠ n := by
      intro x hx
      obtain ⟨r, hr, hr1, _⟩ := manifestEntries_mem _ x hx
      obtain ⟨b, hb, hbe⟩ := processAll_results_names env outputDir l1 fs0 r hr
      rw [← hr1, hbe]
      exact hl1 b hb
    have hlook : lookupEntry
        (manifestEntries ((processAll env outputDir l1 fs0).results ++
          (n, some (destPath outputDir n)) ::
            (processAll env outputDir l2
              (destPath outputDir n :: (processAll env outputDir l1 fs0).fs)).results))
        n = some (destPath outputDir n) := by
      rw [manifestEntries, List.filterMap_append, List.filterMap_cons]
      simp only [Option.map_some']
      exact lookupEntry_middle n _ _ _ hkeys
    simp only [updateAnimal, hname0, hlook]

/-- Witness for C1: the Shark scenario — one entity in two categories, the
locator returns one URL, the fetch succeeds. -/
theorem dedup_one_entry_one_fetch_witness :
    (download_images
        ⟨fun p => if p = "https://en.wikipedia.org/wiki/Shark" then
            some "https://upload.wikimedia.org/shark.jpg" else none,
          fun _ => true, none, 1000⟩
        [("squaloid", [⟨"Shark", some "https://en.wikipedia.org/wiki/Shark", none⟩]),
         ("selachian", [⟨"Shark", some "https://en.wikipedia.org/wiki/Shark", none⟩])]
        "images" []).manifest.filter (fun e => e.1 == "Shark") =
      [("Shark", destPath "images" "Shark")] ∧
    (download_images
        ⟨fun p => if p = "https://en.wikipedia.org/wiki/Shark" then
            some "https://upload.wikimedia.org/shark.jpg" else none,
          fun _ => true, none, 1000⟩
        [("squaloid", [⟨"Shark", some "https://en.wikipedia.org/wiki/Shark", none⟩]),
         ("selachian", [⟨"Shark", some "https://en.wikipedia.org/wiki/Shark", none⟩])]
        "images" []).events.filter (NetEvent.forName "Shark") =
      [.locateCall "Shark" "https://en.wikipedia.org/wiki/Shark",
       .fetchCall "Shark" "https://upload.wikimedia.org/shark.jpg"
         (destPath "images" "Shark")] ∧
    ∀ c ∈ (download_images
        ⟨fun p => if p = "https://en.wikipedia.org/wiki/Shark" then
            some "https://upload.wikimedia.org/shark.jpg" else none,
          fun _ => true, none, 1000⟩
        [("squaloid", [⟨"Shark", some "https://en.wikipedia.org/wiki/Shark", none⟩]),
         ("selachian", [⟨"Shark", some "https://en.wikipedia.org/wiki/Shark", none⟩])]
        "images" []).mapping, ∀ a ∈ c.2,
      a.name = "Shark" → a.image_path = some (destPath "images" "Shark") :=
  dedup_one_entry_one_fetch
    ⟨fun p => if p = "https://en.wikipedia.org/wiki/Shark" then
        some "https://upload.wikimedia.org/shark.jpg" else none,
      fun _ => true, none, 1000⟩
    [("squaloid", [⟨"Shark", some "https://en.wikipedia.org/wiki/Shark", none⟩]),
     ("selachian", [⟨"Shark", some "https://en.wikipedia.org/wiki/Shark", none⟩])]
    "images" [] "Shark" "https://en.wikipedia.org/wiki/Shark"
    "https://upload.wikimedia.org/shark.jpg"
    (by decide) (by decide) (by decide) rfl (by decide) (by decide)

/-! ## Claim C5 -/

/-- Claim C5 (code bug): with free disk space at 5 MB — below the critical
10 MB threshold — `download_images` does NOT abort: the `raise OSError` of
downloader.py line 682 is swallowed by the enclosing `except Exception`
handler of lines 683-684 (whose own log message says "aborting download"),
so the run proceeds to issue network requests and build a manifest.  The
inner check (`diskCheckInner`) does produce the resource-exhaustion error
the claim describes; the surrounding handler discards it. -/
theorem disk_critical_shortage_not_aborted :
    diskCheckInner 5 = Except.error "Insufficient disk space" ∧
    (download_images
        ⟨fun _ => some "https://upload.wikimedia.org/dog.jpg", fun _ => true,
          none, 5⟩
        [("canine", [⟨"Dog", some "https://en.wikipedia.org/wiki/Dog", none⟩])]
        "images" []).events =
      [.locateCall "Dog" "https://en.wikipedia.org/wiki/Dog",
       .fetchCall "Dog" "https://upload.wikimedia.org/dog.jpg"
         (destPath "images" "Dog")] ∧
    (download_images
        ⟨fun _ => some "https://upload.wikimedia.org/dog.jpg", fun _ => true,
          none, 5⟩
        [("canine", [⟨"Dog", some "https://en.wikipedia.org/wiki/Dog", none⟩])]
        "images" []).manifest = [("Dog", destPath "images" "Dog")] := by
  refine ⟨?_, ?_, ?_⟩
  · norm_num [diskCheckInner]
  · rw [download_images_eq]
    decide
  · rw [download_images_eq]
    decide

/-! ## Claim C6 -/

/-- Claim C6: when the slug-derived destination file of entity `n` already
exists in the output directory, `download_images` issues no locate or fetch
call on behalf of `n`; consequently, a second run over the filesystem left
by a first run issues no locate or fetch call for any entity the first run
resolved (any `n` with a manifest entry). -/
theorem idempotent_second_run (env : Env)
    (mapping : List (String × List Animal)) (outputDir : String)
    (fs0 : List String) (n : String) :
    (destPath outputDir n ∈ fs0 →
      (download_images env mapping outputDir fs0).events.filter
        (NetEvent.forName n) = []) ∧
    (∀ p,
      lookupEntry (download_images env mapping outputDir fs0).manifest n = some p →
      (download_images env mapping outputDir
          (download_images env mapping outputDir fs0).fs).events.filter
        (NetEvent.forName n) = []) := by
  constructor
  · intro h
    rw [download_images_eq]
    exact processAll_skip_name env outputDir n _ fs0 h
  · intro p hp
    rw [download_images_eq] at hp
    dsimp only at hp
    have hmem := lookupEntry_mem n p _ hp
    obtain ⟨r, hr, hr1, hr2⟩ := manifestEntries_mem _ _ hmem
    have hsome := processAll_results_some env outputDir
      (uniqueAnimals mapping) fs0 r hr p hr2
    have hdp : p = destPath outputDir n := by
      rw [hsome.1, hr1]
    rw [download_images_eq, download_images_eq]
    dsimp only
    refine processAll_skip_name env outputDir n _ _ ?_
    rw [← hdp]
    exact hsome.2

/-- Witness for C6: a pre-existing destination silences the first run for
that entity, and a successful first run silences the second run. -/
theorem idempotent_second_run_witness :
    (download_images
        ⟨fun _ => some "https://upload.wikimedia.org/shark.jpg", fun _ => true,
          none, 1000⟩
        [("squaloid", [⟨"Shark", some "https://en.wikipedia.org/wiki/Shark", none⟩])]
        "images" [destPath "images" "Shark"]).events.filter
      (NetEvent.forName "Shark") = [] ∧
    (download_images
        ⟨fun _ => some "https://upload.wikimedia.org/shark.jpg", fun _ => true,
          none, 1000⟩
        [("squaloid", [⟨"Shark", some "https://en.wikipedia.org/wiki/Shark", none⟩])]
        "images"
        (download_images
          ⟨fun _ => some "https://upload.wikimedia.org/shark.jpg", fun _ => true,
            none, 1000⟩
          [("squaloid", [⟨"Shark", some "https://en.wikipedia.org/wiki/Shark", none⟩])]
          "images" []).fs).events.filter
      (NetEvent.forName "Shark") = [] :=
  ⟨(idempotent_second_run
      ⟨fun _ => some "https://upload.wikimedia.org/shark.jpg", fun _ => true,
        none, 1000⟩
      [("squaloid", [⟨"Shark", some "https://en.wikipedia.org/wiki/Shark", none⟩])]
      "images" [destPath "images" "Shark"] "Shark").1 (by decide),
   (idempotent_second_run
      ⟨fun _ => some "https://upload.wikimedia.org/shark.jpg", fun _ => true,
        none, 1000⟩
      [("squaloid", [⟨"Shark", some "https://en.wikipedia.org/wiki/Shark", none⟩])]
      "images" [] "Shark").2 (destPath "images" "Shark")
      (by rw [download_images_eq]; decide)⟩

end AnimalNames
